import Mathlib

/-!
# REGoth: save slots and the dialogue choice registry

A shallow embedding of `src/logic/SavegameManager.cpp` and of the choice
registry declared in `src/logic/DialogManager.h`.

C++ strings are Lean strings, one character standing for one byte.  The file
system the code talks to is a table from paths to contents, together with what
the operating system decides on its own: whether a path can be opened for
writing, and how many bytes a stream takes before the device refuses more.

The JSON library is followed on the texts and values on which its releases
agree and no double has to be rounded; everywhere else a step ends `beyond`,
which states nothing about the program.
-/

namespace REGoth

/-! ## Data model -/

/-- Modelled from the spec: the declaration of `SavegameManager::SavegameInfo`
(SavegameManager.h) is not among the sources.  The fields are the ones
`readSavegameInfo` and `writeSavegameInfo` assign: the `unsigned int` version,
the name, the world, and the time played, a number of an arithmetic type
that the sources do not show. -/
structure SavegameInfo where
  version : Nat
  name : String
  world : String
  timePlayed : Int
deriving DecidableEq, Repr

/-- What the parts of the program outside `SavegameManager.cpp` fix:
`Utils::getUserDataLocation()`, the game type of the running engine
(`getBasicGameType() == GT_Gothic1`), the constants `G1_MAX_SLOTS` and
`G2_MAX_SLOTS`, the value of a default-constructed `SavegameInfo`, the
default of the third parameter of `Utils::forEachFile`, and the cast of a
64-bit JSON integer to the arithmetic type of `SavegameInfo::timePlayed`
(`timeOfNumber`; the number itself wherever that type represents it). -/
structure Host where
  userDataLocation : String
  gothic1 : Bool
  g1MaxSlots : Int
  g2MaxSlots : Int
  defaultInfo : SavegameInfo
  recurseByDefault : Bool
  timeOfNumber : Int → Int

/-- The file system: the regular files (path, contents) in directory order,
whether the operating system lets a path be opened for writing (`fopen(p, "w")`,
`std::ofstream(p)`), and how many bytes a stream takes before the device
refuses more. -/
structure Disk where
  files : List (String × String)
  canOpen : String → Bool
  room : Nat

/-! ## Library calls -/

/-- Decimal rendering of an `int`, as `std::to_string(int)` prints it. -/
def to_string (i : Int) : String :=
  match i with
  | Int.ofNat n => Nat.repr n
  | Int.negSucc n => "-" ++ Nat.repr (n + 1)

/-- Modelled from the spec: `Utils::startsWith` is not among the sources; by
its name and its use on the allowlist of recognized file-name beginnings it
tests that `s` begins with `start`. -/
def startsWith (s start : String) : Bool :=
  start.data.isPrefixOf s.data

/-- Modelled from the spec: `Utils::endsWith` is not among the sources; it
tests that `s` ends with `ending`. -/
def endsWith (s ending : String) : Bool :=
  ending.data.isSuffixOf s.data

/-- Contents stored under a path, if the path names a regular file. -/
def Disk.lookup (d : Disk) (p : String) : Option String :=
  d.files.lookup p

/-- Modelled from the spec: `Utils::getFileSize` is not among the sources.  A
missing file has size zero, as the callers rely on (`Not found or empty`) and
as the storage contract reads a missing blob as absent. -/
def getFileSize (d : Disk) (file : String) : Nat :=
  match d.lookup file with
  | some c => c.length
  | none => 0

/-- Modelled from the spec: `Utils::readFileContents` is not among the
sources; it returns the bytes of the file (nothing for a missing file). -/
def readFileContents (d : Disk) (file : String) : String :=
  (d.lookup file).getD ""

/-- The last component of a path: what follows the last separator. -/
def fileName (p : String) : String :=
  ⟨(p.data.reverse.takeWhile (fun c => c != '/')).reverse⟩

/-- Whether the file at `p` lies in `directory`: directly in it, or anywhere
below it when `recursive` is set. -/
def inDirectory (directory : String) (recursive : Bool) (p : String) : Bool :=
  (directory ++ "/").data.isPrefixOf p.data &&
    (recursive || !(p.data.drop (directory.length + 1)).contains '/')

/-- Modelled from the spec: `Utils::forEachFile` is not among the sources.  It
calls `fn(path, name, ext)` for each file of `directory` (and of the
directories below it when `recursive`), in directory order.  `path` is the
path of the file itself, the reading under which `clearSavegame` empties the
listed file with `fopen(path, "w")`; `name` is its last component.  Neither
callback in `SavegameManager.cpp` looks at `ext`, which is left out.  The
callback is a state transformer: `σ` is what the C++ lambda mutates. -/
def forEachFile {σ : Type} (d : Disk) (directory : String)
    (fn : σ → String → String → σ) (recursive : Bool) (init : σ) : σ :=
  ((d.files.map Prod.fst).filter (inDirectory directory recursive)).foldl
    (fun s path => fn s path (fileName path)) init

/-- Replace the contents of every table entry stored under `p`. -/
def Disk.store (d : Disk) (p c : String) : Disk :=
  { d with files := d.files.map (fun e => if e.1 == p then (e.1, c) else e) }

/-- Opening a path for writing, `fopen(p, "w")` or `std::ofstream f(p)`: when
the operating system allows it, an existing file is truncated and a missing
one is created empty; otherwise nothing changes and there is no stream. -/
def openForWriting (d : Disk) (p : String) : Option Disk :=
  if d.canOpen p then
    if (d.lookup p).isSome then some (d.store p "")
    else some { d with files := d.files ++ [(p, "")] }
  else none

/-- Inserting into a freshly opened output stream, `f << data`: the file
receives the bytes the device takes, all of `data` when there is room. -/
def streamInsert (d : Disk) (p data : String) : Disk :=
  d.store p ⟨data.data.take d.room⟩

/-! ## SavegameManager.cpp -/

/-- Source: `SavegameManager::gameSpecificSubFolderName`. -/
def gameSpecificSubFolderName (h : Host) : String :=
  if h.gothic1 then "Gothic" else "Gothic 2"

/-- Source: `SavegameManager::buildSavegamePath`. -/
def buildSavegamePath (h : Host) (idx : Int) : String :=
  h.userDataLocation ++ "/" ++ gameSpecificSubFolderName h ++ "/savegame_" ++ to_string idx

/-- Source: `SavegameManager::buildWorldPath`. -/
def buildWorldPath (h : Host) (idx : Int) (worldName : String) : String :=
  buildSavegamePath h idx ++ "/world_" ++ worldName ++ ".json"

/-- Source: `SavegameManager::isSavegameAvailable`. -/
def isSavegameAvailable (h : Host) (d : Disk) (idx : Int) : Bool :=
  getFileSize d (buildSavegamePath h idx ++ "/regoth_save.json") > 0

/-- Source: `SavegameManager::getSavegameWorlds`; `forEachFile` is called
without its third argument. -/
def getSavegameWorlds (h : Host) (d : Disk) (idx : Int) : List String :=
  forEachFile d (buildSavegamePath h idx)
    (fun worlds path name =>
      if getFileSize d (path ++ "/" ++ name) == 0 then worlds
      else worlds ++ [name])
    h.recurseByDefault []

/-- The local `isRegothFile` of the callback in `clearSavegame`. -/
def isRegothFile (name : String) : Bool :=
  endsWith name ".json" &&
    (startsWith name "regoth_"
      || startsWith name "world_"
      || startsWith name "player"
      || startsWith name "dialogmanager"
      || startsWith name "scriptengine")

/-- The callback `clearSavegame` hands to `forEachFile`. -/
def clearFile (d : Disk) (path name : String) : Disk :=
  if !isRegothFile name then d
  else
    match openForWriting d path with
    | none => d
    | some emptied => emptied

/-- Source: `SavegameManager::clearSavegame`. -/
def clearSavegame (h : Host) (d : Disk) (idx : Int) : Disk :=
  if !isSavegameAvailable h d idx then d
  else forEachFile d (buildSavegamePath h idx) clearFile false d

/-- Source: `SavegameManager::readFileInSlot`. -/
def readFileInSlot (h : Host) (d : Disk) (idx : Int) (relativePath : String) : String :=
  let file := buildSavegamePath h idx ++ "/" ++ relativePath
  if getFileSize d file == 0 then ""
  else readFileContents d file

/-- Source: `SavegameManager::writeFileInSlot`: the disk afterwards and the
returned flag.  `ensureSavegameFolders` only makes directories, which the
table does not hold; whether the file can then be opened is `canOpen`.  The
stream is not examined after the insertion. -/
def writeFileInSlot (h : Host) (d : Disk) (idx : Int) (relativePath data : String) :
    Disk × Bool :=
  let file := buildSavegamePath h idx ++ "/" ++ relativePath
  match openForWriting d file with
  | none => (d, false)
  | some opened => (streamInsert opened file data, true)

/-! ## JSON documents (`json/json.hpp`) -/

/-- A JSON value as the JSON library holds it.  An integer numeral within 64
bits is a `num` (the library's `number_integer` and `number_unsigned`); every
other numeral is a `float`, the double nearest to `mantissa * 10 ^ exponent`. -/
inductive Json where
  | null
  | bool (b : Bool)
  | num (n : Int)
  | float (mantissa exponent : Int)
  | str (s : String)
  | arr (items : List Json)
  | obj (members : List (String × Json))

/-- What ends a call abnormally: an exception of the JSON library that nothing
catches (a parse error, a conversion or access of the wrong type), or a failed
`assert`. -/
inductive Fault where
  | parseError
  | typeError
  | assertion
deriving DecidableEq, Repr

/-- How a step that may throw ends: with a value, with a fault, or `beyond`
what is followed here.  `beyond` stands for no behaviour of the program: it
marks the inputs on which the outcome depends on the release of the JSON
library, on the rounding of a double, or on a declaration that is not among
the sources, and nothing is stated about them. -/
inductive Run (α : Type) where
  | ok (a : α)
  | fault (f : Fault)
  | beyond

/-- Sequencing: a fault, like `beyond`, ends the steps that follow. -/
def Run.bind {α β : Type} (x : Run α) (f : α → Run β) : Run β :=
  match x with
  | Run.ok a => f a
  | Run.fault e => Run.fault e
  | Run.beyond => Run.beyond

instance : Monad Run where
  pure := Run.ok
  bind := Run.bind

/-- Whether an integer fits the 64-bit integers of the library, signed or
unsigned. -/
def inRange64 (n : Int) : Bool :=
  decide (-(2 ^ 63) ≤ n) && decide (n < 2 ^ 64)

/-- How a scan of the input ends: with a result and the input left, with the
input found not to be JSON, or `beyond` (see `Run`). -/
inductive Scan (α : Type) where
  | done (a : α) (rest : List Char)
  | invalid
  | beyond

def quoteChar : Char := Char.ofNat 34
def backslashChar : Char := Char.ofNat 92
def openBrace : Char := Char.ofNat 123
def closeBrace : Char := Char.ofNat 125
def openBracket : Char := Char.ofNat 91
def closeBracket : Char := Char.ofNat 93

/-- The bytes the parser is followed on: the ASCII characters from the space
on, and tab, line feed and carriage return. -/
def inAlphabet (c : Char) : Bool :=
  (32 ≤ c.toNat && c.toNat ≤ 127) || c.toNat == 9 || c.toNat == 10 || c.toNat == 13

/-- Skip JSON white space: space, tab, line feed, carriage return. -/
def skipWs : List Char → List Char
  | [] => []
  | c :: cs =>
    if c == ' ' || c == Char.ofNat 9 || c == Char.ofNat 10 || c == Char.ofNat 13 then skipWs cs
    else c :: cs

/-- The character a one-letter escape stands for. -/
def unescape (c : Char) : Option Char :=
  if c == quoteChar then some quoteChar
  else if c == backslashChar then some backslashChar
  else if c == '/' then some '/'
  else if c == 'b' then some (Char.ofNat 8)
  else if c == 'f' then some (Char.ofNat 12)
  else if c == 'n' then some (Char.ofNat 10)
  else if c == 'r' then some (Char.ofNat 13)
  else if c == 't' then some (Char.ofNat 9)
  else none

/-- Value of a hexadecimal digit. -/
def hexValue (c : Char) : Option Nat :=
  if '0' ≤ c && c ≤ '9' then some (c.toNat - 48)
  else if 'a' ≤ c && c ≤ 'f' then some (c.toNat - 87)
  else if 'A' ≤ c && c ≤ 'F' then some (c.toNat - 55)
  else none

/-- The UTF-8 bytes of a code point below 65536, last byte first. -/
def utf8BytesReversed (v : Nat) : List Char :=
  if v < 128 then [Char.ofNat v]
  else if v < 2048 then [Char.ofNat (128 + v % 64), Char.ofNat (192 + v / 64)]
  else [Char.ofNat (128 + v % 64), Char.ofNat (128 + v / 64 % 64), Char.ofNat (224 + v / 4096)]

/-- Where the scan of a string literal stands: between characters, after a
backslash, or inside a `u` escape with `left` digits to come. -/
inductive StringState where
  | plain
  | escaped
  | hex (left value : Nat)

/-- The rest of a string literal, after its opening quote: the string and the
input after the closing quote.  A `u` escape gives the UTF-8 bytes of its code
point; the surrogate code points are left `beyond`. -/
def parseString : List Char → StringState → List Char → Scan String
  | [], _, _ => Scan.invalid
  | c :: cs, StringState.plain, acc =>
    if c == quoteChar then Scan.done ⟨acc.reverse⟩ cs
    else if c == backslashChar then parseString cs StringState.escaped acc
    else if c.toNat < 32 then Scan.invalid
    else parseString cs StringState.plain (c :: acc)
  | c :: cs, StringState.escaped, acc =>
    if c == 'u' then parseString cs (StringState.hex 4 0) acc
    else
      match unescape c with
      | some x => parseString cs StringState.plain (x :: acc)
      | none => Scan.invalid
  | c :: cs, StringState.hex left value, acc =>
    match hexValue c with
    | none => Scan.invalid
    | some digit =>
      let v := 16 * value + digit
      if left ≤ 1 then
        if 55296 ≤ v && v ≤ 57343 then Scan.beyond
        else parseString cs StringState.plain (utf8BytesReversed v ++ acc)
      else parseString cs (StringState.hex (left - 1) v) acc

/-- Value of a run of decimal digits. -/
def digitsValue (ds : List Char) : Nat :=
  ds.foldl (fun a c => 10 * a + (c.toNat - 48)) 0

/-- The value of a numeral from its parts: sign, integer digits, fraction
digits (if any) and exponent (if any).  Without fraction and exponent a
numeral within 64 bits is an integer; any other numeral is read as a double,
and left `beyond` when it may lie outside the finite doubles. -/
def numberValue (negative : Bool) (ds : List Char) (fs : Option (List Char))
    (exponent : Option Int) : Run Json :=
  let signed : Nat → Int := fun m => if negative then -(m : Int) else (m : Int)
  match fs, exponent with
  | none, none =>
    if inRange64 (signed (digitsValue ds)) then Run.ok (Json.num (signed (digitsValue ds)))
    else if ds.length ≤ 300 then Run.ok (Json.float (signed (digitsValue ds)) 0)
    else Run.beyond
  | _, _ =>
    let frac := fs.getD []
    let e := exponent.getD 0
    if (ds.length : Int) + e ≤ 300 then
      Run.ok (Json.float (signed (digitsValue (ds ++ frac))) (e - (frac.length : Int)))
    else Run.beyond

/-- The exponent of a numeral, if one follows: `e` or `E`, an optional sign
and at least one digit. -/
def parseExponent (cs : List Char) : Scan (Option Int) :=
  match cs with
  | [] => Scan.done none []
  | c :: rest =>
    if c == 'e' || c == 'E' then
      let negative := rest.head? == some '-'
      let body := if rest.head? == some '-' || rest.head? == some '+' then rest.drop 1 else rest
      let es := body.takeWhile Char.isDigit
      if es.isEmpty then Scan.invalid
      else Scan.done
        (some (if negative then -(digitsValue es : Int) else (digitsValue es : Int)))
        (body.dropWhile Char.isDigit)
    else Scan.done none (c :: rest)

/-- The fraction of a numeral, if one follows: a point and at least one
digit. -/
def parseFraction (cs : List Char) : Scan (Option (List Char)) :=
  match cs with
  | [] => Scan.done none []
  | c :: rest =>
    if c == '.' then
      let fs := rest.takeWhile Char.isDigit
      if fs.isEmpty then Scan.invalid
      else Scan.done (some fs) (rest.dropWhile Char.isDigit)
    else Scan.done none (c :: rest)

/-- A numeral: an optional minus sign, digits without a leading zero (a lone
`0` apart), an optional fraction and an optional exponent. -/
def parseNumber (cs : List Char) : Scan Json :=
  let negative := cs.head? == some '-'
  let body := if negative then cs.drop 1 else cs
  let ds := body.takeWhile Char.isDigit
  if ds.isEmpty then Scan.invalid
  else if ds.head? == some '0' && ds.length > 1 then Scan.invalid
  else
    match parseFraction (body.dropWhile Char.isDigit) with
    | Scan.invalid => Scan.invalid
    | Scan.beyond => Scan.beyond
    | Scan.done fs rest1 =>
      match parseExponent rest1 with
      | Scan.invalid => Scan.invalid
      | Scan.beyond => Scan.beyond
      | Scan.done exponent rest2 =>
        match numberValue negative ds fs exponent with
        | Run.ok j => Scan.done j rest2
        | Run.fault _ => Scan.invalid
        | Run.beyond => Scan.beyond

/-- What the parser is in the middle of: a value, the members of an object, or
the items of an array. -/
inductive ParseMode where
  | value
  | members (acc : List (String × Json))
  | items (acc : List Json)

/-- Recursive descent over the input.  Every call consumes input, so a fuel of
twice the input length is not used up; were it, the result would be `beyond`.
An object that repeats a member name is left `beyond`. -/
def parseAux : Nat → ParseMode → List Char → Scan Json
  | 0, _, _ => Scan.beyond
  | fuel + 1, ParseMode.value, cs =>
    match skipWs cs with
    | [] => Scan.invalid
    | c :: rest =>
      if c == openBrace then
        match skipWs rest with
        | [] => Scan.invalid
        | c2 :: rest2 =>
          if c2 == closeBrace then Scan.done (Json.obj []) rest2
          else parseAux fuel (ParseMode.members []) (c2 :: rest2)
      else if c == openBracket then
        match skipWs rest with
        | [] => Scan.invalid
        | c2 :: rest2 =>
          if c2 == closeBracket then Scan.done (Json.arr []) rest2
          else parseAux fuel (ParseMode.items []) (c2 :: rest2)
      else if c == quoteChar then
        match parseString rest StringState.plain [] with
        | Scan.done s rest2 => Scan.done (Json.str s) rest2
        | Scan.invalid => Scan.invalid
        | Scan.beyond => Scan.beyond
      else if "null".data.isPrefixOf (c :: rest) then Scan.done Json.null (rest.drop 3)
      else if "true".data.isPrefixOf (c :: rest) then Scan.done (Json.bool true) (rest.drop 3)
      else if "false".data.isPrefixOf (c :: rest) then Scan.done (Json.bool false) (rest.drop 4)
      else parseNumber (c :: rest)
  | fuel + 1, ParseMode.members acc, cs =>
    match skipWs cs with
    | [] => Scan.invalid
    | c :: rest =>
      if c == quoteChar then
        match parseString rest StringState.plain [] with
        | Scan.invalid => Scan.invalid
        | Scan.beyond => Scan.beyond
        | Scan.done key rest1 =>
          match skipWs rest1 with
          | [] => Scan.invalid
          | c1 :: rest2 =>
            if c1 == ':' then
              match parseAux fuel ParseMode.value rest2 with
              | Scan.invalid => Scan.invalid
              | Scan.beyond => Scan.beyond
              | Scan.done v rest3 =>
                match skipWs rest3 with
                | [] => Scan.invalid
                | c3 :: rest4 =>
                  if c3 == ',' then
                    if (acc.lookup key).isSome then
                      match parseAux fuel (ParseMode.members acc) rest4 with
                      | Scan.invalid => Scan.invalid
                      | _ => Scan.beyond
                    else parseAux fuel (ParseMode.members (acc ++ [(key, v)])) rest4
                  else if c3 == closeBrace then
                    if (acc.lookup key).isSome then Scan.beyond
                    else Scan.done (Json.obj (acc ++ [(key, v)])) rest4
                  else Scan.invalid
            else Scan.invalid
      else Scan.invalid
  | fuel + 1, ParseMode.items acc, cs =>
    match parseAux fuel ParseMode.value cs with
    | Scan.invalid => Scan.invalid
    | Scan.beyond => Scan.beyond
    | Scan.done v rest =>
      match skipWs rest with
      | [] => Scan.invalid
      | c :: rest1 =>
        if c == ',' then parseAux fuel (ParseMode.items (acc ++ [v])) rest1
        else if c == closeBracket then Scan.done (Json.arr (acc ++ [v])) rest1
        else Scan.invalid

/-- The library's `json::parse`: the document, or a parse error when the text
is not one JSON value (the empty text is not).  A text with a byte outside
`inAlphabet` is left `beyond`. -/
def parse (text : String) : Run Json :=
  if text.data.all inAlphabet then
    match parseAux (2 * text.length + 2) ParseMode.value text.data with
    | Scan.done j rest =>
      if (skipWs rest).isEmpty then Run.ok j else Run.fault Fault.parseError
    | Scan.invalid => Run.fault Fault.parseError
    | Scan.beyond => Run.beyond
  else Run.beyond

/-- The library's `j.find(key) != j.end()`: an object that has the member. -/
def Json.contains (j : Json) (key : String) : Bool :=
  match j with
  | Json.obj members => (members.lookup key).isSome
  | _ => false

/-- The library's `j[key]` on a non-const value: the member of an object,
`null` for a member it lacks (one is inserted) and on a `null` value (which
becomes an object); a type error on anything else. -/
def Json.index (j : Json) (key : String) : Run Json :=
  match j with
  | Json.obj members => Run.ok ((members.lookup key).getD Json.null)
  | Json.null => Run.ok Json.null
  | _ => Run.fault Fault.typeError

/-- Conversion to `std::string`: a type error unless the value is a string. -/
def Json.asString (j : Json) : Run String :=
  match j with
  | Json.str s => Run.ok s
  | _ => Run.fault Fault.typeError

/-- Conversion to `unsigned int`: a 64-bit integer is cast to 32 bits; a
value that is no number at all is a type error.  The cast of a double and the
conversion of a boolean (on which releases of the library differ) are left
`beyond`. -/
def Json.asUnsigned (j : Json) : Run Nat :=
  match j with
  | Json.num n => if inRange64 n then Run.ok (n % 2 ^ 32).toNat else Run.beyond
  | Json.float _ _ => Run.beyond
  | Json.bool _ => Run.beyond
  | _ => Run.fault Fault.typeError

/-- Conversion to the type of `SavegameInfo::timePlayed`: a 64-bit integer is
cast as the host has it (`timeOfNumber`); a value that is no number at all is
a type error.  The cast of a double and the conversion of a boolean are left
`beyond`. -/
def Json.asTime (h : Host) (j : Json) : Run Int :=
  match j with
  | Json.num n => if inRange64 n then Run.ok (h.timeOfNumber n) else Run.beyond
  | Json.float _ _ => Run.beyond
  | Json.bool _ => Run.beyond
  | _ => Run.fault Fault.typeError

/-! ## SavegameManager.cpp: save metadata and loading -/

/-- Source: `SavegameManager::readSavegameInfo`, with the library's
`json::parse` as `jsonParse`. -/
def readSavegameInfoWith (jsonParse : String → Run Json) (h : Host) (d : Disk) (idx : Int) :
    Run SavegameInfo :=
  let info := buildSavegamePath h idx ++ "/regoth_save.json"
  if getFileSize d info == 0 then Run.ok h.defaultInfo
  else do
    let infoContents := readFileContents d info
    let j ← jsonParse infoContents
    let version ← if j.contains "version" then j.index "version" >>= Json.asUnsigned
                  else pure 0
    let name ← j.index "name" >>= Json.asString
    let world ← j.index "world" >>= Json.asString
    let timePlayed ← j.index "timePlayed" >>= Json.asTime h
    pure { version := version, name := name, world := world, timePlayed := timePlayed }

/-- Source: `SavegameManager::readSavegameInfo`, on the parser followed
here. -/
def readSavegameInfo (h : Host) (d : Disk) (idx : Int) : Run SavegameInfo :=
  readSavegameInfoWith parse h d idx

/-- Source: `SavegameManager::readPlayer`. -/
def readPlayer (h : Host) (d : Disk) (idx : Int) (playerName : String) : String :=
  readFileInSlot h d idx (playerName ++ ".json")

/-- Source: `SavegameManager::readWorld`. -/
def readWorld (h : Host) (d : Disk) (idx : Int) (worldName : String) : String :=
  readFileInSlot h d idx ("world_" ++ worldName ++ ".json")

/-- Source: `SavegameManager::maxSlots`. -/
def maxSlots (h : Host) : Int :=
  if h.gothic1 then h.g1MaxSlots else h.g2MaxSlots

/-- A call `loadSaveGameSlot` makes on the engine and its session. -/
inductive SessionCall where
  | resetSession
  | setCurrentSlot (index : Int)
  | addWorld (world scriptEngine dialogManager : Json)
  | setMainWorld
  | importVobAndTakeControl (player : Json)
  | setTotalSeconds (timePlayed : Int)

/-- How a call of `loadSaveGameSlot` ends: it returns its string, or a fault
ends it, either way with the calls made on the session up to then; or the
call is `beyond` what is followed here (see `Run`). -/
inductive Outcome where
  | returned (message : String) (calls : List SessionCall)
  | fault (f : Fault) (calls : List SessionCall)
  | beyond

/-- Source: `SavegameManager::loadSaveGameSlot`.  `worldValid` is what the
engine answers for the handle `addWorld` returns.  The frame-time guard
`ExcludeFrameTime` touches the engine clock of the frame only and is left
out. -/
def loadSaveGameSlot (h : Host) (d : Disk) (worldValid : Bool) (index : Int) : Outcome :=
  if !(index ≥ 0 && index < maxSlots h) then Outcome.fault Fault.assertion []
  else if !isSavegameAvailable h d index then
    Outcome.returned ("Savegame at slot " ++ to_string index ++ " not available!") []
  else
    match readSavegameInfo h d index with
    | Run.beyond => Outcome.beyond
    | Run.fault f => Outcome.fault f []
    | Run.ok info =>
      let worldFileData := readWorld h d index info.world
      if worldFileData == "" then
        Outcome.returned ("Target world-file invalid: " ++ buildWorldPath h index info.world) []
      else
        match parse worldFileData with
        | Run.beyond => Outcome.beyond
        | Run.fault f => Outcome.fault f []
        | Run.ok worldJson =>
          match parse (readFileInSlot h d index "scriptengine.json") with
          | Run.beyond => Outcome.beyond
          | Run.fault f => Outcome.fault f []
          | Run.ok scriptEngine =>
            match parse (readFileInSlot h d index "dialogmanager.json") with
            | Run.beyond => Outcome.beyond
            | Run.fault f => Outcome.fault f []
            | Run.ok dialogManager =>
              let calls := [SessionCall.resetSession, SessionCall.setCurrentSlot index,
                SessionCall.addWorld worldJson scriptEngine dialogManager]
              if worldValid then
                match parse (readPlayer h d index "player") with
                | Run.beyond => Outcome.beyond
                | Run.fault f => Outcome.fault f (calls ++ [SessionCall.setMainWorld])
                | Run.ok playerJson =>
                  Outcome.returned "" (calls ++ [SessionCall.setMainWorld,
                    SessionCall.importVobAndTakeControl playerJson,
                    SessionCall.setTotalSeconds info.timePlayed])
              else Outcome.returned "" calls

/-! ## DialogManager.h: the choice registry -/

/-- Source: `DialogManager::ChoiceEntry`; the info handle is an opaque number. -/
structure ChoiceEntry where
  text : String
  functionSym : Nat
  info : Nat
  nr : Int
  important : Bool
deriving DecidableEq, Repr

/-- Source: `ChoiceEntry::comparator`. -/
def ChoiceEntry.comparator (a b : ChoiceEntry) : Bool :=
  a.nr < b.nr

/-- Modelled from the spec: the body of `DialogManager::addChoice`
(DialogManager.cpp) is not among the sources.  `add(entry)`: appends; does not
deduplicate by itself. -/
def addChoice (choices : List ChoiceEntry) (entry : ChoiceEntry) : List ChoiceEntry :=
  choices ++ [entry]

/-- Put an entry into a sorted registry, after the entries that
`comparator` orders before it and ahead of everything else. -/
def insertChoice (e : ChoiceEntry) : List ChoiceEntry → List ChoiceEntry
  | [] => [e]
  | x :: xs => if ChoiceEntry.comparator x e then x :: insertChoice e xs else e :: x :: xs

/-- Modelled from the spec: the body of `DialogManager::sortChoices`
(DialogManager.cpp) is not among the sources.  `sort()`: stable sort by
ascending `order`; ties preserve insertion order.  The order is the one of
`ChoiceEntry::comparator`. -/
def sortChoices : List ChoiceEntry → List ChoiceEntry
  | [] => []
  | x :: xs => insertChoice x (sortChoices xs)

/-! ## Scenarios -/

/-- A Gothic 1 installation with its user data under `/u`; time played is an
unsigned 64-bit count. -/
def host0 : Host :=
  { userDataLocation := "/u", gothic1 := true, g1MaxSlots := 15, g2MaxSlots := 20,
    defaultInfo := { version := 0, name := "", world := "", timePlayed := 0 },
    recurseByDefault := true,
    timeOfNumber := fun n => n % 2 ^ 64 }

/-- Slot 0 without `regoth_save.json`: a world file and a stray file, both
writable. -/
def disk1 : Disk :=
  { files := [("/u/Gothic/savegame_0/world_a.json", "w"),
              ("/u/Gothic/savegame_0/notes.txt", "n")],
    canOpen := fun _ => true, room := 100 }

/-- Slot 0 with a non-empty `regoth_save.json`, a world file and a stray
file, all writable. -/
def disk2 : Disk :=
  { files := [("/u/Gothic/savegame_0/regoth_save.json", "r"),
              ("/u/Gothic/savegame_0/world_a.json", "w"),
              ("/u/Gothic/savegame_0/notes.txt", "n")],
    canOpen := fun _ => true, room := 100 }

/-- An empty disk that is full: files can be opened, no byte can be written. -/
def disk3 : Disk :=
  { files := [], canOpen := fun _ => true, room := 0 }

/-- Slot 0 holds `player.json`; the device takes one more byte. -/
def disk4 : Disk :=
  { files := [("/u/Gothic/savegame_0/player.json", "old")],
    canOpen := fun _ => true, room := 1 }

/-- The metadata document with `name` a, `world` w and `timePlayed` 15, and
no `version`. -/
def infoDoc : String :=
  "\x7b\x22name\x22:\x22a\x22,\x22world\x22:\x22w\x22,\x22timePlayed\x22:15\x7d"

/-- The metadata document with `world` w and `timePlayed` 15, and no `name`. -/
def infoDocNoName : String :=
  "\x7b\x22world\x22:\x22w\x22,\x22timePlayed\x22:15\x7d"

/-- Slot 0 with metadata, the world file of world w and `dialogmanager.json`
(each an empty JSON object), and no `scriptengine.json`. -/
def disk7 : Disk :=
  { files := [("/u/Gothic/savegame_0/regoth_save.json", infoDoc),
              ("/u/Gothic/savegame_0/world_w.json", "\x7b\x7d"),
              ("/u/Gothic/savegame_0/dialogmanager.json", "\x7b\x7d")],
    canOpen := fun _ => true, room := 100 }

/-- Slot 0 whose metadata lacks `name`. -/
def disk8 : Disk :=
  { files := [("/u/Gothic/savegame_0/regoth_save.json", infoDocNoName)],
    canOpen := fun _ => true, room := 100 }

/-- Slot 0 with complete metadata. -/
def disk9 : Disk :=
  { files := [("/u/Gothic/savegame_0/regoth_save.json", infoDoc)],
    canOpen := fun _ => true, room := 100 }

/-! ## Definitions used in the proofs -/

/-- Read a decimal numeral back, starting from `a`. -/
def readDigits (a : Nat) (cs : List Char) : Nat :=
  cs.foldl (fun a c => 10 * a + (c.toNat - 48)) a

/-- Read back what `to_string` prints. -/
def readInt (cs : List Char) : Int :=
  match cs with
  | '-' :: rest => -(readDigits 0 rest : Int)
  | _ => readDigits 0 cs

/-- What `clearFile` has done to the table once `forEachFile` has been through
the paths `ps`. -/
def emptied (d : Disk) (ps : List String) (e : String × String) : String × String :=
  if ps.contains e.1 && isRegothFile (fileName e.1) && d.canOpen e.1 then (e.1, "") else e

/-- The files `clearSavegame` goes through: those directly in the slot
directory. -/
def slotListing (h : Host) (d : Disk) (idx : Int) : List String :=
  (d.files.map Prod.fst).filter (inDirectory (buildSavegamePath h idx) false)

/-- No file of the table lies below another file of the table. -/
def filesAreLeaves (d : Disk) : Prop :=
  ∀ p ∈ d.files.map Prod.fst, ∀ q ∈ d.files.map Prod.fst,
    (p ++ "/").data.isPrefixOf q.data = false

/-! ## Slot paths -/

theorem digitChar_value (k : Nat) (hk : k < 10) : (Nat.digitChar k).toNat - 48 = k := by
  interval_cases k <;> rfl

theorem digitChar_ne_minus (k : Nat) (hk : k < 10) : Nat.digitChar k ≠ '-' := by
  interval_cases k <;> decide

theorem readDigits_toDigitsCore (fuel : Nat) :
    ∀ (n : Nat) (ds : List Char), n < fuel →
      readDigits 0 (Nat.toDigitsCore 10 fuel n ds) = readDigits n ds := by
  induction fuel with
  | zero => intro n ds hn; omega
  | succ fuel ih =>
    intro n ds hn
    simp only [Nat.toDigitsCore]
    split
    · rename_i hz
      have hlt : n < 10 := by omega
      simp [readDigits, digitChar_value n hlt, Nat.mod_eq_of_lt hlt]
    · rename_i hz
      have hdiv : n / 10 < fuel := by omega
      rw [ih (n / 10) _ hdiv]
      simp only [readDigits, List.foldl_cons, digitChar_value (n % 10) (Nat.mod_lt _ (by omega))]
      congr 1
      omega

theorem toDigitsCore_head (fuel : Nat) :
    ∀ (n k : Nat) (ds : List Char), k < 10 →
      ∃ m rest, m < 10 ∧
        Nat.toDigitsCore 10 fuel n (Nat.digitChar k :: ds) = Nat.digitChar m :: rest := by
  induction fuel with
  | zero => intro n k ds hk; exact ⟨k, ds, hk, rfl⟩
  | succ fuel ih =>
    intro n k ds hk
    simp only [Nat.toDigitsCore]
    split
    · exact ⟨_, _, Nat.mod_lt _ (by omega), rfl⟩
    · exact ih (n / 10) _ _ (Nat.mod_lt _ (by omega))

theorem toDigits_head (n : Nat) :
    ∃ m rest, m < 10 ∧ Nat.toDigits 10 n = Nat.digitChar m :: rest := by
  simp only [Nat.toDigits, Nat.toDigitsCore]
  split
  · exact ⟨_, _, Nat.mod_lt _ (by omega), rfl⟩
  · exact toDigitsCore_head n (n / 10) _ _ (Nat.mod_lt _ (by omega))

theorem readInt_repr (n : Nat) : readInt (Nat.repr n).data = n := by
  obtain ⟨k, rest, hk10, hk⟩ := toDigits_head n
  have hr := readDigits_toDigitsCore (n + 1) n [] (by omega)
  simp only [Nat.repr, List.asString]
  rw [show Nat.toDigitsCore 10 (n + 1) n [] = Nat.toDigits 10 n from rfl] at hr
  rw [hk] at hr ⊢
  have hne := digitChar_ne_minus k hk10
  unfold readInt
  split
  · rename_i heq
    simp at heq
    exact absurd heq.1 hne
  · rw [hr]; simp [readDigits]

theorem readInt_to_string (i : Int) : readInt (to_string i).data = i := by
  cases i with
  | ofNat n => simpa [to_string] using readInt_repr n
  | negSucc n =>
    have hr := readDigits_toDigitsCore (n + 1 + 1) (n + 1) [] (by omega)
    have hd : (to_string (Int.negSucc n)).data = '-' :: Nat.toDigitsCore 10 (n + 1 + 1) (n + 1) [] :=
      rfl
    rw [hd]
    show -(readDigits 0 (Nat.toDigitsCore 10 (n + 1 + 1) (n + 1) []) : Int) = _
    rw [hr, Int.negSucc_eq]
    simp [readDigits]

theorem to_string_injective (i j : Int) (h : to_string i = to_string j) : i = j := by
  have := congrArg (fun s => readInt s.data) h
  simpa [readInt_to_string] using this

/-- C6. One directory per slot: two different slot indices have different
slot directories, and the world file of any world name lies at different
paths in the two slots. -/
theorem buildSavegamePath_injective (h : Host) (i j : Int) (hij : i ≠ j) :
    buildSavegamePath h i ≠ buildSavegamePath h j ∧
      ∀ w : String, buildWorldPath h i w ≠ buildWorldPath h j w := by
  have key : ∀ (a b c : String), a ++ to_string i ++ b = a ++ to_string j ++ c → b = c → False := by
    intro a b c hab hbc
    subst hbc
    have hd := congrArg String.data hab
    simp only [String.data_append, List.append_assoc] at hd
    have h1 := List.append_cancel_left hd
    have h2 := List.append_cancel_right h1
    exact hij (to_string_injective i j (String.ext h2))
  constructor
  · intro he
    apply key (h.userDataLocation ++ "/" ++ gameSpecificSubFolderName h ++ "/savegame_") "" ""
    · simpa [buildSavegamePath] using he
    · rfl
  · intro w he
    apply key (h.userDataLocation ++ "/" ++ gameSpecificSubFolderName h ++ "/savegame_")
      ("/world_" ++ w ++ ".json") ("/world_" ++ w ++ ".json")
    · simpa [buildWorldPath, buildSavegamePath, String.append_assoc] using he
    · rfl

/-- C6 (witness). Slots 3 and 4 of `host0`. -/
theorem buildSavegamePath_injective_witness :
    (3 : Int) ≠ 4 ∧ (buildSavegamePath host0 3 ≠ buildSavegamePath host0 4 ∧
      ∀ w : String, buildWorldPath host0 3 w ≠ buildWorldPath host0 4 w) :=
  ⟨by decide, buildSavegamePath_injective host0 3 4 (by decide)⟩

/-! ## The choice registry -/

theorem foldl_addChoice (entries init : List ChoiceEntry) :
    entries.foldl addChoice init = init ++ entries := by
  induction entries generalizing init with
  | nil => simp
  | cons e es ih => simp [ih, addChoice]

theorem insertChoice_perm (e : ChoiceEntry) (l : List ChoiceEntry) :
    (insertChoice e l).Perm (e :: l) := by
  induction l with
  | nil => exact List.Perm.refl _
  | cons x xs ih =>
    unfold insertChoice
    split
    · exact ((List.Perm.cons x ih).trans (List.Perm.swap e x xs))
    · exact List.Perm.refl _

theorem sortChoices_perm (l : List ChoiceEntry) : (sortChoices l).Perm l := by
  induction l with
  | nil => exact List.Perm.refl _
  | cons x xs ih =>
    exact (insertChoice_perm x (sortChoices xs)).trans (List.Perm.cons x ih)

theorem insertChoice_ascending (e : ChoiceEntry) (l : List ChoiceEntry)
    (hl : l.Pairwise (fun a b => a.nr ≤ b.nr)) :
    (insertChoice e l).Pairwise (fun a b => a.nr ≤ b.nr) := by
  induction l with
  | nil => simp [insertChoice]
  | cons x xs ih =>
    rw [List.pairwise_cons] at hl
    unfold insertChoice
    split
    · rename_i hlt
      have hlt2 : x.nr < e.nr := by simpa [ChoiceEntry.comparator] using hlt
      rw [List.pairwise_cons]
      refine ⟨?_, ih hl.2⟩
      intro y hy
      rcases List.mem_cons.mp ((insertChoice_perm e xs).subset hy) with rfl | hy2
      · omega
      · exact hl.1 y hy2
    · rename_i hge
      have hge2 : e.nr ≤ x.nr := by
        have : ¬ x.nr < e.nr := by simpa [ChoiceEntry.comparator] using hge
        omega
      rw [List.pairwise_cons]
      refine ⟨?_, List.pairwise_cons.mpr hl⟩
      intro y hy
      rcases List.mem_cons.mp hy with rfl | hy2
      · exact hge2
      · exact le_trans hge2 (hl.1 y hy2)

theorem sortChoices_ascending (l : List ChoiceEntry) :
    (sortChoices l).Pairwise (fun a b => a.nr ≤ b.nr) := by
  induction l with
  | nil => simp [sortChoices]
  | cons x xs ih => exact insertChoice_ascending x _ ih

theorem insertChoice_filter (k : Int) (e : ChoiceEntry) (l : List ChoiceEntry) :
    (insertChoice e l).filter (fun c => c.nr == k) = (e :: l).filter (fun c => c.nr == k) := by
  induction l with
  | nil => rfl
  | cons x xs ih =>
    unfold insertChoice
    split
    · rename_i hlt
      have hlt2 : x.nr < e.nr := by simpa [ChoiceEntry.comparator] using hlt
      by_cases hx : x.nr = k
      · have he : ¬ e.nr = k := by omega
        simp [List.filter_cons, hx, he, ih]
      · simp [List.filter_cons, hx, ih]
    · rfl

theorem sortChoices_filter (k : Int) (l : List ChoiceEntry) :
    (sortChoices l).filter (fun c => c.nr == k) = l.filter (fun c => c.nr == k) := by
  induction l with
  | nil => rfl
  | cons x xs ih =>
    show (insertChoice x (sortChoices xs)).filter _ = _
    rw [insertChoice_filter, List.filter_cons, List.filter_cons, ih]

/-- C5. After any sequence of `addChoice` calls, `sortChoices` leaves a
permutation of the added entries that is non-decreasing in `nr`, and for every
value of `nr` the entries carrying it stand in the order in which they were
added. -/
theorem sortChoices_stable (entries : List ChoiceEntry) :
    (sortChoices (entries.foldl addChoice [])).Perm entries ∧
      (sortChoices (entries.foldl addChoice [])).Pairwise (fun a b => a.nr ≤ b.nr) ∧
      ∀ k : Int, (sortChoices (entries.foldl addChoice [])).filter (fun c => c.nr == k) =
        entries.filter (fun c => c.nr == k) := by
  rw [foldl_addChoice, List.nil_append]
  exact ⟨sortChoices_perm entries, sortChoices_ascending entries,
    fun k => sortChoices_filter k entries⟩

/-! ## Clearing a slot -/

theorem lookup_isSome_iff (files : List (String × String)) (p : String) :
    (files.lookup p).isSome = true ↔ p ∈ files.map Prod.fst := by
  induction files with
  | nil => simp
  | cons e es ih =>
    obtain ⟨k, v⟩ := e
    by_cases hk : p = k
    · subst hk; simp [List.lookup]
    · have hb : (p == k) = false := by simpa using hk
      simp [List.lookup, hb, ih, hk]

theorem lookup_map_keep (files : List (String × String)) (g : String × String → String × String)
    (p : String) (hfst : ∀ e, (g e).1 = e.1) (hp : ∀ e, e.1 = p → g e = e) :
    (files.map g).lookup p = files.lookup p := by
  induction files with
  | nil => rfl
  | cons e es ih =>
    have h1 := hfst e
    by_cases hk : e.1 = p
    · have h2 := hp e hk
      rw [List.map_cons, h2]
      obtain ⟨k, v⟩ := e
      simp only at hk
      subst hk
      simp [List.lookup]
    · rw [List.map_cons]
      obtain ⟨k, v⟩ := e
      have hg : g (k, v) = ((g (k, v)).1, (g (k, v)).2) := rfl
      rw [hg, h1]
      have hb : (p == k) = false := by
        simp only at hk
        simpa using fun h => hk h.symm
      simp [List.lookup, hb, ih]

theorem emptied_fst (d : Disk) (ps : List String) (e : String × String) :
    (emptied d ps e).1 = e.1 := by
  unfold emptied
  split <;> rfl

theorem emptied_nil (d : Disk) (e : String × String) : emptied d [] e = e := by
  simp [emptied]

theorem emptied_cons (d next : Disk) (hc : next.canOpen = d.canOpen) (p : String)
    (ps : List String) (e : String × String) :
    emptied next ps (emptied d [p] e) = emptied d (p :: ps) e := by
  obtain ⟨k, v⟩ := e
  unfold emptied
  rw [hc]
  by_cases hq : k = p
  · subst hq
    by_cases ha : k ∈ ps <;> cases hb : isRegothFile (fileName k) <;>
      cases ho : d.canOpen k <;> simp [ha, hb, ho]
  · by_cases ha : k ∈ ps <;> cases hb : isRegothFile (fileName k) <;>
      cases ho : d.canOpen k <;> simp [hq, ha, hb, ho]

theorem clearFile_step (d : Disk) (p : String) (hp : (d.files.lookup p).isSome = true) :
    (clearFile d p (fileName p)).canOpen = d.canOpen ∧
      (clearFile d p (fileName p)).room = d.room ∧
      (clearFile d p (fileName p)).files = d.files.map (emptied d [p]) := by
  have hsame : ∀ e : String × String,
      (isRegothFile (fileName p) && d.canOpen p) = false → emptied d [p] e = e := by
    intro e hcond
    obtain ⟨k, v⟩ := e
    unfold emptied
    by_cases hq : k = p
    · subst hq
      rw [Bool.and_assoc, hcond]
      simp
    · simp [hq]
  unfold clearFile openForWriting
  cases hr : isRegothFile (fileName p)
  · refine ⟨rfl, rfl, ?_⟩
    have hid : d.files.map (emptied d [p]) = d.files.map id :=
      List.map_congr_left (fun e _ => hsame e (by simp [hr]))
    simpa using hid.symm
  · cases ho : d.canOpen p
    · refine ⟨rfl, rfl, ?_⟩
      have hid : d.files.map (emptied d [p]) = d.files.map id :=
        List.map_congr_left (fun e _ => hsame e (by simp [ho]))
      simpa using hid.symm
    · simp only [Disk.lookup, hp, Bool.not_true, if_true]
      refine ⟨rfl, rfl, ?_⟩
      simp only [Disk.store]
      apply List.map_congr_left
      intro e _
      obtain ⟨k, v⟩ := e
      unfold emptied
      by_cases hq : k = p
      · subst hq
        simp [hr, ho]
      · simp [hq]

theorem clearFile_fold (ps : List String) :
    ∀ d : Disk, (∀ p ∈ ps, p ∈ d.files.map Prod.fst) →
      (ps.foldl (fun s path => clearFile s path (fileName path)) d).canOpen = d.canOpen ∧
      (ps.foldl (fun s path => clearFile s path (fileName path)) d).room = d.room ∧
      (ps.foldl (fun s path => clearFile s path (fileName path)) d).files =
        d.files.map (emptied d ps) := by
  induction ps with
  | nil =>
    intro d _
    refine ⟨rfl, rfl, ?_⟩
    have hid : d.files.map (emptied d []) = d.files.map id :=
      List.map_congr_left (fun e _ => emptied_nil d e)
    simpa using hid.symm
  | cons p ps ih =>
    intro d hps
    have hp : (d.files.lookup p).isSome = true :=
      (lookup_isSome_iff d.files p).mpr (hps p (List.mem_cons_self _ _))
    obtain ⟨hc, hroom, hf⟩ := clearFile_step d p hp
    have hkeys : (clearFile d p (fileName p)).files.map Prod.fst = d.files.map Prod.fst := by
      rw [hf, List.map_map]
      apply List.map_congr_left
      intro e _
      exact emptied_fst d [p] e
    have hps2 : ∀ q ∈ ps, q ∈ (clearFile d p (fileName p)).files.map Prod.fst := by
      intro q hq
      rw [hkeys]
      exact hps q (List.mem_cons_of_mem _ hq)
    obtain ⟨ic, iroom, ifiles⟩ := ih (clearFile d p (fileName p)) hps2
    rw [List.foldl_cons]
    refine ⟨ic.trans hc, iroom.trans hroom, ?_⟩
    rw [ifiles, hf, List.map_map]
    apply List.map_congr_left
    intro e _
    exact emptied_cons d _ hc p ps e

theorem clearSavegame_files (h : Host) (d : Disk) (idx : Int)
    (hav : isSavegameAvailable h d idx = true) :
    (clearSavegame h d idx).files = d.files.map (emptied d (slotListing h d idx)) := by
  have hsub : ∀ p ∈ slotListing h d idx, p ∈ d.files.map Prod.fst := by
    intro p hp
    exact (List.mem_filter.mp hp).1
  have hfold := (clearFile_fold (slotListing h d idx) d hsub).2.2
  simp only [clearSavegame, hav, Bool.not_true, forEachFile]
  exact hfold

theorem clearSavegame_files_any (h : Host) (d : Disk) (idx : Int) :
    ∃ ps : List String, (∀ p ∈ ps, inDirectory (buildSavegamePath h idx) false p = true) ∧
      (clearSavegame h d idx).files = d.files.map (emptied d ps) := by
  cases hav : isSavegameAvailable h d idx
  · refine ⟨[], by simp, ?_⟩
    have hid : d.files.map (emptied d []) = d.files.map id :=
      List.map_congr_left (fun e _ => emptied_nil d e)
    simp only [clearSavegame, hav, Bool.not_false, if_true]
    simpa using hid.symm
  · exact ⟨slotListing h d idx, fun p hp => (List.mem_filter.mp hp).2,
      clearSavegame_files h d idx hav⟩

/-- C1 (amended). When the slot is available (its `regoth_save.json` is not
empty) and every file directly in the slot directory can be opened for
writing, then after `clearSavegame` every file of that directory whose name
ends with `.json` and starts with `regoth_`, `world_`, `player`,
`dialogmanager` or `scriptengine` has length zero. -/
theorem clearSavegame_empties (h : Host) (d : Disk) (idx : Int)
    (hav : isSavegameAvailable h d idx = true)
    (hopen : ∀ p ∈ d.files.map Prod.fst,
      inDirectory (buildSavegamePath h idx) false p = true → d.canOpen p = true) :
    ∀ p c : String, (p, c) ∈ (clearSavegame h d idx).files →
      inDirectory (buildSavegamePath h idx) false p = true →
      isRegothFile (fileName p) = true → c.length = 0 := by
  intro p c hmem hdir hname
  rw [clearSavegame_files h d idx hav] at hmem
  obtain ⟨e, he, heq⟩ := List.mem_map.mp hmem
  have hfst : e.1 = p := by
    have := congrArg Prod.fst heq
    rwa [emptied_fst] at this
  have hkey : e.1 ∈ d.files.map Prod.fst := List.mem_map.mpr ⟨e, he, rfl⟩
  have hlist : e.1 ∈ slotListing h d idx := by
    rw [hfst]
    rw [hfst] at hkey
    exact List.mem_filter.mpr ⟨hkey, hdir⟩
  have hcan : d.canOpen e.1 = true := by
    rw [hfst]
    rw [hfst] at hkey
    exact hopen p hkey hdir
  have hname2 : isRegothFile (fileName e.1) = true := by rw [hfst]; exact hname
  have hc : c = "" := by
    have := congrArg Prod.snd heq
    simp only [emptied] at this
    simp [hlist, hname2, hcan] at this
    exact this.symm
  rw [hc]
  rfl

/-- C2. `clearSavegame` leaves the list of file paths as it was (no file is
deleted or created), and every file whose name does not both end with
`.json` and start with a recognized beginning, like every file that is not
directly in the slot directory, keeps exactly its contents. -/
theorem clearSavegame_frame (h : Host) (d : Disk) (idx : Int) :
    (clearSavegame h d idx).files.map Prod.fst = d.files.map Prod.fst ∧
      (∀ p : String, isRegothFile (fileName p) = false →
        (clearSavegame h d idx).lookup p = d.lookup p) ∧
      (∀ p : String, inDirectory (buildSavegamePath h idx) false p = false →
        (clearSavegame h d idx).lookup p = d.lookup p) := by
  obtain ⟨ps, hps, hfiles⟩ := clearSavegame_files_any h d idx
  refine ⟨?_, ?_, ?_⟩
  · rw [hfiles, List.map_map]
    apply List.map_congr_left
    intro e _
    exact emptied_fst d ps e
  · intro p hp
    simp only [Disk.lookup, hfiles]
    apply lookup_map_keep _ _ _ (emptied_fst d ps)
    intro e he
    simp [emptied, he, hp]
  · intro p hp
    simp only [Disk.lookup, hfiles]
    apply lookup_map_keep _ _ _ (emptied_fst d ps)
    intro e he
    have hnot : ¬ e.1 ∈ ps := by
      intro hin
      have := hps e.1 hin
      rw [he, hp] at this
      exact absurd this (by decide)
    simp [emptied, hnot]

/-- C9. When the slot is not available, `clearSavegame` changes nothing. -/
theorem clearSavegame_unavailable (h : Host) (d : Disk) (idx : Int)
    (hna : isSavegameAvailable h d idx = false) :
    clearSavegame h d idx = d := by
  simp [clearSavegame, hna]

/-! ## Listing the files of a slot -/

theorem foldl_skip {α β : Type} (f : List β → α → List β) (l : List α)
    (hskip : ∀ a ∈ l, f [] a = []) : l.foldl f [] = [] := by
  induction l with
  | nil => rfl
  | cons a as ih =>
    rw [List.foldl_cons, hskip a (List.mem_cons_self _ _)]
    exact ih (fun b hb => hskip b (List.mem_cons_of_mem _ hb))

/-- On a disk where no file lies below another file, `getSavegameWorlds`
returns no name, whatever the sizes of the files of the slot. -/
theorem getSavegameWorlds_nil (h : Host) (d : Disk) (idx : Int) (hleaf : filesAreLeaves d) :
    getSavegameWorlds h d idx = [] := by
  unfold getSavegameWorlds forEachFile
  apply foldl_skip
  intro p hp
  have hpm : p ∈ d.files.map Prod.fst := (List.mem_filter.mp hp).1
  have hnone : d.lookup (p ++ "/" ++ fileName p) = none := by
    cases hl : d.lookup (p ++ "/" ++ fileName p) with
    | none => rfl
    | some c =>
      have hq : p ++ "/" ++ fileName p ∈ d.files.map Prod.fst :=
        (lookup_isSome_iff d.files _).mp (by
          have : d.files.lookup (p ++ "/" ++ fileName p) = some c := hl
          rw [this]; rfl)
      have hno := hleaf p hpm _ hq
      have hyes : (p ++ "/").data.isPrefixOf (p ++ "/" ++ fileName p).data = true := by
        rw [List.isPrefixOf_iff_prefix, String.data_append]
        exact List.prefix_append _ _
      rw [hyes] at hno
      exact absurd hno (by decide)
  simp [getFileSize, hnone]

/-! ## Loading a slot -/

/-- An in-range, available slot whose metadata and world file are read and
parsed, and whose `scriptengine.json` is missing or empty: `loadSaveGameSlot`
ends with the parse error of the empty text, before any call on the session. -/
theorem loadSaveGameSlot_no_scriptengine (h : Host) (d : Disk) (worldValid : Bool)
    (index : Int) (info : SavegameInfo) (worldJson : Json)
    (hrange : (index ≥ 0 && index < maxSlots h) = true)
    (hav : isSavegameAvailable h d index = true)
    (hinfo : readSavegameInfo h d index = Run.ok info)
    (hworld : (readWorld h d index info.world == "") = false)
    (hjson : parse (readWorld h d index info.world) = Run.ok worldJson)
    (hscript : getFileSize d (buildSavegamePath h index ++ "/" ++ "scriptengine.json") = 0) :
    loadSaveGameSlot h d worldValid index = Outcome.fault Fault.parseError [] := by
  have hread : readFileInSlot h d index "scriptengine.json" = "" := by
    simp [readFileInSlot, hscript]
  have hparse : parse "" = Run.fault Fault.parseError := rfl
  simp only [loadSaveGameSlot, hrange, hav, hinfo, hworld, hjson, hread, hparse,
    Bool.not_true, Bool.false_eq_true, if_false]

/-- A slot without metadata: `loadSaveGameSlot` returns its message and makes
no call on the session. -/
theorem loadSaveGameSlot_unavailable (h : Host) (d : Disk) (worldValid : Bool) (index : Int)
    (hrange : (index ≥ 0 && index < maxSlots h) = true)
    (hna : isSavegameAvailable h d index = false) :
    loadSaveGameSlot h d worldValid index =
      Outcome.returned ("Savegame at slot " ++ to_string index ++ " not available!") [] := by
  simp only [loadSaveGameSlot, hrange, hna, Bool.not_true, Bool.not_false,
    Bool.false_eq_true, if_false, if_true]

/-! ## Writing and reading a file of a slot -/

theorem lookup_append_new (files : List (String × String)) (p c q : String) :
    (files ++ [(p, c)]).lookup q =
      if (files.lookup q).isSome then files.lookup q else if q == p then some c else none := by
  induction files with
  | nil =>
    cases hq : (q == p) <;> simp [List.lookup, hq]
  | cons e es ih =>
    obtain ⟨k, v⟩ := e
    rw [List.cons_append, List.lookup_cons, List.lookup_cons]
    cases hk : (q == k)
    · exact ih
    · rfl

theorem lookup_store_same (files : List (String × String)) (p c : String)
    (hp : (files.lookup p).isSome = true) :
    (files.map (fun e => if e.1 == p then (e.1, c) else e)).lookup p = some c := by
  induction files with
  | nil => simp at hp
  | cons e es ih =>
    obtain ⟨k, v⟩ := e
    by_cases hk : k = p
    · subst hk
      rw [List.map_cons]
      simp only [beq_self_eq_true, if_true]
      rw [List.lookup_cons]
      simp
    · have hb : (p == k) = false := by simpa using fun h => hk h.symm
      have hb2 : (k == p) = false := by simpa using hk
      rw [List.lookup_cons, hb] at hp
      rw [List.map_cons]
      simp only [hb2, Bool.false_eq_true, if_false]
      rw [List.lookup_cons, hb]
      exact ih hp

theorem lookup_store_other (files : List (String × String)) (p c q : String) (hq : q ≠ p) :
    (files.map (fun e => if e.1 == p then (e.1, c) else e)).lookup q = files.lookup q := by
  apply lookup_map_keep
  · intro e
    split <;> rfl
  · intro e he
    have hb : (e.1 == p) = false := by
      rw [he]
      simpa using hq
    simp [hb]

theorem openForWriting_some (d o : Disk) (p : String) (ho : openForWriting d p = some o) :
    d.canOpen p = true ∧ o.room = d.room ∧ (o.files.lookup p).isSome = true ∧
      ∀ q : String, q ≠ p → o.files.lookup q = d.files.lookup q := by
  unfold openForWriting at ho
  cases hc : d.canOpen p
  · simp [hc] at ho
  · cases hl : (d.lookup p).isSome
    · simp only [hc, hl, if_true, Bool.false_eq_true, if_false, Option.some.injEq] at ho
      subst ho
      have hl2 : (d.files.lookup p).isSome = false := hl
      refine ⟨rfl, rfl, ?_, ?_⟩
      · simp [lookup_append_new, hl2]
      · intro q hq
        have hb : (q == p) = false := by simpa using hq
        rw [lookup_append_new]
        cases hs : (d.files.lookup q).isSome
        · have : d.files.lookup q = none := by simpa using hs
          simp [hb, this]
        · simp
    · simp only [hc, hl, if_true, Option.some.injEq] at ho
      subst ho
      have hl2 : (d.files.lookup p).isSome = true := hl
      refine ⟨rfl, rfl, ?_, ?_⟩
      · show (List.lookup p (d.files.map _)).isSome = true
        rw [lookup_store_same d.files p "" hl2]
        rfl
      · intro q hq
        exact lookup_store_other d.files p "" q hq

theorem openForWriting_none (d : Disk) (p : String) (ho : openForWriting d p = none) :
    d.canOpen p = false := by
  unfold openForWriting at ho
  cases hc : d.canOpen p
  · rfl
  · rw [hc] at ho
    simp only [if_true] at ho
    split at ho <;> simp at ho

/-- C3 (amended). When `writeFileInSlot` returns true and the device took all
of `data` (no more bytes than it has room for), `readFileInSlot` called next
on the same slot and path returns exactly `data`, the empty string included,
and the contents stored under every other path are as before the write. -/
theorem writeFileInSlot_roundtrip (h : Host) (d : Disk) (idx : Int)
    (relativePath data : String)
    (hret : (writeFileInSlot h d idx relativePath data).2 = true)
    (hroom : data.length ≤ d.room) :
    readFileInSlot h (writeFileInSlot h d idx relativePath data).1 idx relativePath = data ∧
      ∀ q : String, q ≠ buildSavegamePath h idx ++ "/" ++ relativePath →
        (writeFileInSlot h d idx relativePath data).1.lookup q = d.lookup q := by
  unfold writeFileInSlot at hret ⊢
  simp only at hret ⊢
  cases ho : openForWriting d (buildSavegamePath h idx ++ "/" ++ relativePath) with
  | none => simp [ho] at hret
  | some o =>
    obtain ⟨_, hr, hsome, hother⟩ := openForWriting_some d o _ ho
    have htake : (⟨data.data.take o.room⟩ : String) = data := by
      have hlen : data.data.length ≤ o.room := by rw [hr]; exact hroom
      rw [List.take_of_length_le hlen]
    have hfile : (streamInsert o (buildSavegamePath h idx ++ "/" ++ relativePath) data).lookup
        (buildSavegamePath h idx ++ "/" ++ relativePath) = some data := by
      simp only [streamInsert, Disk.store, Disk.lookup, htake]
      exact lookup_store_same o.files _ data hsome
    constructor
    · simp only [readFileInSlot, getFileSize, readFileContents, hfile, Option.getD_some]
      split
      · rename_i hz
        have hz2 : data.length = 0 := by simpa using hz
        exact (String.ext (List.length_eq_zero.mp hz2)).symm
      · rfl
    · intro q hq
      simp only [streamInsert, Disk.store, Disk.lookup]
      rw [lookup_store_other o.files _ _ q hq]
      exact hother q hq

/-- C4 (amended). After `writeFileInSlot` either it returned false, the file
could not be opened, and the disk is as it was; or it returned true, the file
could be opened, and the file holds the bytes of `data` the device took: the
first `room` of them, so exactly `data` when there was room for all, and
otherwise a shorter beginning of it in place of the earlier contents. -/
theorem writeFileInSlot_outcome (h : Host) (d : Disk) (idx : Int)
    (relativePath data : String) :
    ((writeFileInSlot h d idx relativePath data).2 = false ∧
        d.canOpen (buildSavegamePath h idx ++ "/" ++ relativePath) = false ∧
        (writeFileInSlot h d idx relativePath data).1 = d) ∨
      ((writeFileInSlot h d idx relativePath data).2 = true ∧
        d.canOpen (buildSavegamePath h idx ++ "/" ++ relativePath) = true ∧
        (writeFileInSlot h d idx relativePath data).1.lookup
            (buildSavegamePath h idx ++ "/" ++ relativePath) =
          some ⟨data.data.take d.room⟩) := by
  unfold writeFileInSlot
  simp only
  cases ho : openForWriting d (buildSavegamePath h idx ++ "/" ++ relativePath) with
  | none => exact Or.inl ⟨rfl, openForWriting_none d _ ho, rfl⟩
  | some o =>
    obtain ⟨hc, hr, hsome, _⟩ := openForWriting_some d o _ ho
    refine Or.inr ⟨rfl, hc, ?_⟩
    simp only [streamInsert, Disk.store, Disk.lookup, hr]
    exact lookup_store_same o.files _ _ hsome

/-! ## Save metadata -/

/-- C1 (counterexample). Slot 0 of `disk1` has no `regoth_save.json`; every
file can be opened for writing, and still `world_a.json`, a recognized name,
keeps its one byte through `clearSavegame`. -/
theorem clearSavegame_keeps_world_file :
    disk1.files.all (fun e => disk1.canOpen e.1) = true ∧
      isSavegameAvailable host0 disk1 0 = false ∧
      inDirectory (buildSavegamePath host0 0) false "/u/Gothic/savegame_0/world_a.json" = true ∧
      isRegothFile (fileName "/u/Gothic/savegame_0/world_a.json") = true ∧
      getFileSize (clearSavegame host0 disk1 0) "/u/Gothic/savegame_0/world_a.json" = 1 := by
  decide

/-- C1 (witness). Slot 0 of `disk2` is available and all its files can be
opened: the recognized files end up empty. -/
theorem clearSavegame_empties_witness :
    isSavegameAvailable host0 disk2 0 = true ∧
      ∀ p c : String, (p, c) ∈ (clearSavegame host0 disk2 0).files →
        inDirectory (buildSavegamePath host0 0) false p = true →
        isRegothFile (fileName p) = true → c.length = 0 :=
  ⟨by decide, clearSavegame_empties host0 disk2 0 (by decide) (fun _ _ _ => rfl)⟩

/-- C2 (witness). The stray `notes.txt` of slot 0 of `disk2` keeps its
contents. -/
theorem clearSavegame_frame_witness :
    isRegothFile (fileName "/u/Gothic/savegame_0/notes.txt") = false ∧
      (clearSavegame host0 disk2 0).lookup "/u/Gothic/savegame_0/notes.txt" =
        disk2.lookup "/u/Gothic/savegame_0/notes.txt" :=
  ⟨by decide, (clearSavegame_frame host0 disk2 0).2.1 _ (by decide)⟩

/-- C9 (witness). Slot 0 of `disk1` is not available and stays as it is. -/
theorem clearSavegame_unavailable_witness :
    isSavegameAvailable host0 disk1 0 = false ∧ clearSavegame host0 disk1 0 = disk1 :=
  ⟨by decide, clearSavegame_unavailable host0 disk1 0 (by decide)⟩

/-- C3 (counterexample). On a full disk `writeFileInSlot` opens
`player.json`, returns true, and the read that follows returns the empty
string, not the three bytes written. -/
theorem writeFileInSlot_true_without_data :
    (writeFileInSlot host0 disk3 0 "player.json" "abc").2 = true ∧
      readFileInSlot host0 (writeFileInSlot host0 disk3 0 "player.json" "abc").1 0
        "player.json" = "" ∧
      readFileInSlot host0 (writeFileInSlot host0 disk3 0 "player.json" "abc").1 0
        "player.json" ≠ "abc" := by
  decide

/-- C3 (witness). With room on the device, `abc` written to `player.json` is
read back. -/
theorem writeFileInSlot_roundtrip_witness :
    (writeFileInSlot host0 disk2 0 "player.json" "abc").2 = true ∧
      "abc".length ≤ disk2.room ∧
      (readFileInSlot host0 (writeFileInSlot host0 disk2 0 "player.json" "abc").1 0
          "player.json" = "abc" ∧
        ∀ q : String, q ≠ buildSavegamePath host0 0 ++ "/" ++ "player.json" →
          (writeFileInSlot host0 disk2 0 "player.json" "abc").1.lookup q = disk2.lookup q) :=
  ⟨by decide, by decide,
    writeFileInSlot_roundtrip host0 disk2 0 "player.json" "abc" (by decide) (by decide)⟩

/-- C4 (counterexample). `player.json` holds `old` and the device takes one
more byte: `writeFileInSlot` with `new` returns true and leaves the file
holding `n`, which is neither the data nor the earlier contents. -/
theorem writeFileInSlot_partial_write :
    disk4.lookup "/u/Gothic/savegame_0/player.json" = some "old" ∧
      (writeFileInSlot host0 disk4 0 "player.json" "new").2 = true ∧
      (writeFileInSlot host0 disk4 0 "player.json" "new").1.lookup
        "/u/Gothic/savegame_0/player.json" = some "n" ∧
      (writeFileInSlot host0 disk4 0 "player.json" "new").1.lookup
        "/u/Gothic/savegame_0/player.json" ≠ some "new" := by
  decide

/-- C7. Slot 0 of `disk7` is in range and has its metadata, its world file
and `dialogmanager.json`, but no `scriptengine.json`: `loadSaveGameSlot` ends
with the parse error of the empty text, not with an error string. -/
theorem loadSaveGameSlot_missing_scriptengine :
    disk7.lookup "/u/Gothic/savegame_0/scriptengine.json" = none ∧
      loadSaveGameSlot host0 disk7 true 0 = Outcome.fault Fault.parseError [] :=
  ⟨rfl, rfl⟩

/-- C10. Slot 0 of `disk2` holds three non-empty files, `world_a.json` among
them, and `getSavegameWorlds` returns no name at all: the size it tests is
that of the path followed by the name once more. -/
theorem getSavegameWorlds_skips_every_file :
    getFileSize disk2 "/u/Gothic/savegame_0/world_a.json" = 1 ∧
      inDirectory (buildSavegamePath host0 0) false "/u/Gothic/savegame_0/world_a.json" = true ∧
      getSavegameWorlds host0 disk2 0 = [] := by
  decide

end REGoth
